/-
Verification of the abipy input-model core (abipy/abio/inputs.py).

Shallow embedding notes:
  * Python exceptions are modelled by an explicit error type `Err`.
    `AbinitInputError` (the class bound to `AbinitInput.Error`, called
    `ConfigurationError` in the design document) is `Err.configurationError`;
    builtin `ValueError`, `KeyError`, `AttributeError`, `IndexError` and
    `AssertionError` get their own constructors.
  * The ordered mapping `self._vars` (an `OrderedDict`) is a `List (String x Value)`
    with unique keys: updating an existing key keeps its position, a new key is
    appended (`odSet`), deletion removes the entry (`odDel`).
  * The external variable database (`is_abivar`, out of scope per the design
    document) is an oracle parameter `oracle : String -> Bool`.
  * Pseudopotential resolution (`PseudoTable.get_pseudos_for_structure`,
    external) is a parameter `resolve`; pseudopotentials compare by file path.
  * The structural model (pymatgen `Structure`, external) carries its lattice
    matrix (rows as rational triples) and the result of `to_abivars()`.
  * Numeric values are rationals; the concrete sweeps in the claims only use
    values that are exact in binary floating point, where the numpy
    computations agree with exact rational arithmetic.
  * Methods that mutate `self` in place and can raise are embedded with
    explicit state passing `AbinitInput -> (AbinitInput x Except Err _)` so
    that the state left behind by a raised exception stays observable.
-/
import Mathlib

namespace Abipy

/-- Python values stored in the variable mapping: None, ints, floats
(modelled as rationals), strings and (nested) lists. -/
inductive Value where
  | none : Value
  | int : Int → Value
  | rat : ℚ → Value
  | str : String → Value
  | list : List Value → Value
  deriving Inhabited

/-- The exceptions raised by the embedded code. -/
inductive Err where
  | configurationError : String → Err
  | valueError : String → Err
  | keyNotFound : String → Err
  | attributeError : String → Err
  | indexError : Err
  | assertionError : Err
  deriving DecidableEq, Inhabited

/-- A pseudopotential reference; equality is by resolved file path. -/
structure Pseudo where
  path : String
  deriving DecidableEq, Inhabited

/-- The external structural model: lattice matrix rows `a1 a2 a3` and the
geometry variables produced by `to_abivars()`. -/
structure Struct where
  a1 : ℚ × ℚ × ℚ
  a2 : ℚ × ℚ × ℚ
  a3 : ℚ × ℚ × ℚ
  abivars : List (String × Value)
  deriving Inhabited

/-- Scalar triple product of the three lattice rows, `dot(cross(m0, m1), m2)`
in `AbinitInput.set_structure`. -/
def tripleProduct (s : Struct) : ℚ :=
  let c1 := s.a1.2.1 * s.a2.2.2 - s.a1.2.2 * s.a2.2.1
  let c2 := s.a1.2.2 * s.a2.1 - s.a1.1 * s.a2.2.2
  let c3 := s.a1.1 * s.a2.2.1 - s.a1.2.1 * s.a2.1
  c1 * s.a3.1 + c2 * s.a3.2.1 + c3 * s.a3.2.2

/-- ordered-dict lookup. -/
def odGet (m : List (String × Value)) (k : String) : Option Value :=
  (m.find? (fun p => p.1 = k)).map (fun p => p.2)

/-- ordered-dict membership (`key in self`). -/
def odHas (m : List (String × Value)) (k : String) : Bool :=
  m.any (fun p => p.1 = k)

/-- ordered-dict assignment: an existing key keeps its position, a new key is
appended at the end. -/
def odSet (m : List (String × Value)) (k : String) (v : Value) : List (String × Value) :=
  if odHas m k then m.map (fun p => if p.1 = k then (k, v) else p)
  else m ++ [(k, v)]

/-- ordered-dict deletion. -/
def odDel (m : List (String × Value)) (k : String) : List (String × Value) :=
  m.filter (fun p => p.1 ≠ k)

/-- The module-level `_GEOVARS` set, embedded verbatim from the source.  The
Python literal is missing commas after `"rprimd"`, `"xred"` and `"xcart"`, so
adjacent string literals are concatenated and the set holds the fused names
`"rprimdangdeg"` and `"xredxcartxangst"` instead of the five separate names. -/
def GEOVARS : List String :=
  ["acell", "rprim", "rprimdangdeg", "xredxcartxangst", "znucl", "typat", "ntypat", "natom"]

/-- The per-dataset container `AbinitInput`. -/
structure AbinitInput where
  vars : List (String × Value)
  struct : Struct
  pseudos : List Pseudo
  comment : Option String
  mnemonics : Bool
  deriving Inhabited

/-- Embedding of `AbinitInput._check_varname`: the name must be accepted by the external
variable database and must not be a member of `_GEOVARS`. -/
def check_varname (oracle : String → Bool) (key : String) : Except Err Unit :=
  if !(oracle key) then
    .error (.configurationError (key ++ " is not a valid ABINIT variable."))
  else if key ∈ GEOVARS then
    .error (.configurationError
      "You cannot set the value of a variable associated to the structure. Use set_structure")
  else .ok ()

/-- Embedding of `AbinitInput.__setitem__`: validate the name, then store. -/
def setitem (oracle : String → Bool) (inp : AbinitInput) (key : String) (v : Value) :
    Except Err AbinitInput := do
  let _ ← check_varname oracle key
  .ok { inp with vars := odSet inp.vars key v }

/-- Embedding of `AbinitInput.__getitem__`: dict lookup, `KeyError` when absent. -/
def getitem (inp : AbinitInput) (key : String) : Except Err Value :=
  match odGet inp.vars key with
  | some v => .ok v
  | none => .error (.keyNotFound key)

/-- Loop body of `AbinitInput.set_vars`: each pair goes through
`__setitem__`; on the first invalid name the exception propagates and the
pairs already applied stay applied. -/
def set_vars_go (oracle : String → Bool) (inp : AbinitInput) :
    List (String × Value) → AbinitInput × Except Err Unit
  | [] => (inp, .ok ())
  | (k, v) :: rest =>
    match check_varname oracle k with
    | .ok _ => set_vars_go oracle { inp with vars := odSet inp.vars k v } rest
    | .error e => (inp, .error e)

/-- Embedding of `AbinitInput.set_vars`: applies every pair, returns the applied pairs. -/
def set_vars (oracle : String → Bool) (inp : AbinitInput) (kvs : List (String × Value)) :
    AbinitInput × Except Err (List (String × Value)) :=
  match set_vars_go oracle inp kvs with
  | (inp2, .ok _) => (inp2, .ok kvs)
  | (inp2, .error e) => (inp2, .error e)

/-- Loop body of `AbinitInput.remove_vars`: `if key not in self: raise
KeyError`, then `self.pop(key)`.  A missing name raises before that name is
removed; names already popped stay removed. -/
def remove_vars_go (inp : AbinitInput) (acc : List Value) :
    List String → AbinitInput × Except Err (List Value)
  | [] => (inp, .ok acc.reverse)
  | k :: rest =>
    match inp.vars.find? (fun p => p.1 = k) with
    | some p => remove_vars_go { inp with vars := odDel inp.vars k } (p.2 :: acc) rest
    | none => (inp, .error (.keyNotFound k))

/-- Embedding of `AbinitInput.remove_vars`. -/
def remove_vars (inp : AbinitInput) (keys : List String) :
    AbinitInput × Except Err (List Value) :=
  remove_vars_go inp [] keys

/-- Embedding of `AbinitInput.set_structure`: the structural model is assigned first, the
triple-product check runs afterwards, so a failing call leaves the new model
in place (state component) while raising `AbinitInputError`. -/
def set_structure (inp : AbinitInput) (s : Struct) : AbinitInput × Except Err Struct :=
  let inp2 := { inp with struct := s }
  if tripleProduct s ≤ 0 then
    (inp2, .error (.configurationError
      "The triple product of the lattice vector is negative. Use structure abi_sanitize."))
  else (inp2, .ok s)

/-- Embedding of `AbinitInput.__init__` with `pseudo_dir=None`: seed variables are
validated one by one, the variable dict is built, `set_structure` runs the
lattice check, then the pseudopotentials are resolved against the structure
(the external resolver raising `ValueError` is re-raised as the input error
class). -/
def AbinitInput.init (oracle : String → Bool)
    (resolve : List Pseudo → Struct → Except String (List Pseudo))
    (s : Struct) (pseudos : List Pseudo) (comment : Option String)
    (vars : List (String × Value)) : Except Err AbinitInput := do
  let _ ← vars.mapM (fun p => check_varname oracle p.1)
  let base : AbinitInput :=
    { vars := vars, struct := s, pseudos := [], comment := none, mnemonics := false }
  let base ←
    match set_structure base s with
    | (_, .error e) => .error e
    | (b, .ok _) => pure b
  let ps ←
    match resolve pseudos base.struct with
    | .ok ps => pure ps
    | .error msg => Except.error (Err.configurationError msg)
  .ok { base with pseudos := ps, comment := comment }

/-- Embedding of `numpy.linspace(start, stop, num, endpoint)` over exact rationals:
`num` samples `start + i * step` with `step = (stop - start) / d`, where `d`
is `num - 1` when the endpoint is included and `num` otherwise. -/
def np_linspace (start stop : ℚ) (num : Nat) (endpoint : Bool) : List ℚ :=
  if num = 0 then []
  else if num = 1 then [start]
  else
    let d : ℚ := if endpoint then ((num : ℚ) - 1) else (num : ℚ)
    (List.range num).map (fun i => start + (i : ℚ) * ((stop - start) / d))

/-- Embedding of `AbinitInput.linspace`: one deep copy of `self` per sample, with the
swept variable overwritten through `__setitem__`. -/
def linspace (oracle : String → Bool) (inp : AbinitInput) (varname : String)
    (start stop : ℚ) (num : Nat) (endpoint : Bool) : Except Err (List AbinitInput) :=
  (np_linspace start stop num endpoint).mapM (fun q => setitem oracle inp varname (.rat q))

/-- One positional argument of `AbinitInput.product`: a variable name
(string) or a list of values. -/
inductive ProdItem where
  | name : String → ProdItem
  | vals : List Value → ProdItem

/-- Embedding of `itertools.product`: cartesian product in row-major order (the last
factor varies fastest). -/
def cartProd {α : Type} : List (List α) → List (List α)
  | [] => [[]]
  | xs :: rest => xs.flatMap (fun x => (cartProd rest).map (fun t => x :: t))

/-- The index computed by the `for i, item in enumerate(items): if not
is_string(item): break` scan in `AbinitInput.product`: the first non-string
position, or the last position when every item is a string. -/
def firstNonStrIdx (items : List ProdItem) : Nat :=
  match items.findIdx? (fun it => match it with | .name _ => false | .vals _ => true) with
  | some j => j
  | none => items.length - 1

/-- Python iteration over one entry of the value section: a list yields its
elements, a string yields its one-character substrings. -/
def prodIterate : ProdItem → List Value
  | .vals vs => vs
  | .name s => s.data.map (fun c => Value.str (String.singleton c))

/-- Embedding of `AbinitInput.product`: split the arguments at the first non-string, check
that the two halves have the same length, then build one deep copy per tuple
of the cartesian product, applying `set_vars` with the zipped names. -/
def product (oracle : String → Bool) (inp : AbinitInput) (items : List ProdItem) :
    Except Err (List AbinitInput) :=
  let i := firstNonStrIdx items
  let nameItems := items.take i
  let valueItems := items.drop i
  if nameItems.length ≠ valueItems.length then
    .error (.configurationError "The number of variables must equal the number of lists")
  else
    let varnames := nameItems.map (fun it => match it with | .name s => s | .vals _ => "")
    let values := valueItems.map prodIterate
    let nameRows := (varnames.zip values).map (fun p => List.replicate p.2.length p.1)
    let nameTuples := cartProd nameRows
    let valTuples := cartProd values
    (nameTuples.zip valTuples).mapM (fun p =>
      match set_vars oracle inp (p.1.zip p.2) with
      | (inp2, .ok _) => .ok inp2
      | (_, .error e) => .error e)

/-- The `#`-framed banner placed above dataset `i1` (1-based) in
`MultiDataset.__str__`, together with the surrounding newlines: the block for
a nonempty rendering `s` is this banner followed by `s` and a newline. -/
def dsBanner (i1 : Nat) : String :=
  let header := "### DATASET " ++ toString i1 ++ " ###"
  let bar := String.mk (List.replicate header.length (Char.ofNat 35))
  bar ++ "\n" ++ header ++ "\n" ++ bar ++ "\n"

/-- Embedding of `AbinitInput.to_string`.  External collaborators are parameters: `defn`
is the variable database used for mnemonic comments, `fmtVar` is
`str(InputVariable(varname, value))`, and `pjson` is the list of lines of
`json.dumps` of the pseudopotential records with indent 4.  The key list computed from
`sortmode` is dead in the source (rendering always walks `self.items()` in
insertion order), so only the `sortmode` validity check is kept. -/
def to_string (defn : String → String) (fmtVar : String → Value → String)
    (pjson : List Pseudo → List String) (inp : AbinitInput)
    (sortmode : Option String) (post : String)
    (with_structure : Bool) (with_pseudos : Bool) : Except Err String :=
  if sortmode = none ∨ sortmode = some "a" then
    let commentLines : List String :=
      match inp.comment with
      | some c => if c = "" then [] else ["# " ++ c.replace "\n" "\n#"]
      | none => []
    let items := inp.vars ++ (if with_structure then inp.struct.abivars else [])
    let varLines := items.flatMap (fun p =>
      (if inp.mnemonics then ["# <" ++ defn p.1 ++ ">"] else []) ++ [fmtVar (p.1 ++ post) p.2])
    let s := String.intercalate "\n" (commentLines ++ varLines)
    if with_pseudos then
      let ppinfo := ["\n\n\n#<JSON>"] ++ pjson inp.pseudos ++ ["</JSON>"]
      .ok (s ++ String.intercalate "\n#" ppinfo)
    else .ok s
  else .error (.valueError "Unsupported value for sortmode")

/-- Embedding of `MultiDataset`: an ordered list of `AbinitInput` objects. -/
structure MultiDataset where
  inputs : List AbinitInput
  deriving Inhabited

/-- Embedding of `MultiDataset.__init__` restricted to the branch the claims exercise:
`pseudos` is a list of already-constructed `Pseudo` objects and `structure`
is a list of structural models whose length must equal `ndtset`. -/
def MultiDataset.init (oracle : String → Bool)
    (resolve : List Pseudo → Struct → Except String (List Pseudo))
    (structures : List Struct) (pseudos : List Pseudo) (ndtset : Nat) :
    Except Err MultiDataset := do
  if ndtset = 0 then
    .error (.valueError "ndtset cannot be <= 0")
  else if structures.length ≠ ndtset then
    .error .assertionError
  else do
    let inputs ← structures.mapM (fun s => AbinitInput.init oracle resolve s pseudos none [])
    .ok ⟨inputs⟩

/-- Embedding of `MultiDataset.from_inputs`: the consistency loop compares
`zip(inputs[0].pseudos, inp.pseudos)` pairwise and raises `ValueError` when
some zipped pair differs; then a fresh `MultiDataset` is built from the input
structures and the pseudopotentials of the first input, and the variables of each input
are copied into the corresponding fresh dataset with `set_vars`. -/
def MultiDataset.from_inputs (oracle : String → Bool)
    (resolve : List Pseudo → Struct → Except String (List Pseudo))
    (inputs : List AbinitInput) : Except Err MultiDataset :=
  match inputs with
  | [] => .error .indexError
  | first :: _ =>
    if inputs.any (fun inp => (first.pseudos.zip inp.pseudos).any (fun p => p.1 ≠ p.2)) then
      .error (.valueError "Pseudos must be consistent when from_inputs is invoked.")
    else do
      let multi ← MultiDataset.init oracle resolve (inputs.map (fun p => p.struct))
        first.pseudos inputs.length
      let merged ← (inputs.zip multi.inputs).mapM (fun p =>
        match set_vars oracle p.2 p.1.vars with
        | (ni, .ok _) => .ok ni
        | (_, .error e) => Except.error e)
      .ok ⟨merged⟩

/-- One iteration of the dataset loop in `MultiDataset.__str__` over the
enumerated pair `p` (0-based index, dataset) with total count `n`: the
rendering with suffix `str(i+1)`, pseudopotential JSON only when `i` is the
last index, wrapped in the dataset banner when nonempty. -/
def dsBlock (defn : String → String) (fmtVar : String → Value → String)
    (pjson : List Pseudo → List String) (n : Nat) (p : Nat × AbinitInput) :
    Except Err String := do
  let s ← to_string defn fmtVar pjson p.2 none (toString (p.1 + 1)) true (p.1 = n - 1)
  if s = "" then pure s
  else pure ("\n" ++ dsBanner (p.1 + 1) ++ s ++ "\n")

/-- Embedding of `MultiDataset.__str__`: with more than one dataset, a leading
`ndtset n` line, then for each dataset its rendering with positional suffix
`str(i+1)` and the pseudopotential JSON only for the last dataset, wrapped in
a banner when the rendering is nonempty; with a single dataset, the plain
rendering of dataset 0. -/
def MultiDataset.str_ (defn : String → String) (fmtVar : String → Value → String)
    (pjson : List Pseudo → List String) (md : MultiDataset) : Except Err String :=
  if 1 < md.inputs.length then do
    let blocks ← md.inputs.enum.mapM (dsBlock defn fmtVar pjson md.inputs.length)
    .ok (String.intercalate "\n" (("ndtset " ++ toString md.inputs.length) :: blocks))
  else
    match md.inputs with
    | [] => .error .indexError
    | inp :: _ => to_string defn fmtVar pjson inp none "" true true

/-- The value `getattr(obj, name)` produces for one member of one
`AbinitInput`: either a plain attribute value (`Value.none` is Python `None`)
or a bound method.  A bound method receives the call arguments (bundled in
one `Value`) and its object, mutates the object and returns a result. -/
inductive MemberVal where
  | val : Value → MemberVal
  | fn : (Value → AbinitInput → AbinitInput × Except Err Value) → MemberVal

/-- A member of the `AbinitInput` type, as reflection sees it: for each
object, `Option.none` means the attribute is absent (plain `getattr` raises
`AttributeError`), otherwise the attribute value or bound method. -/
def Member : Type := AbinitInput → Option MemberVal

/-- The `on_all` closure inside `MultiDataset.__getattr__`: walk the
datasets in order, re-fetch the member on each, call it with the given
arguments when it is callable and collect its value otherwise.  An exception
propagates, leaving the datasets already visited mutated. -/
def on_all (mem : Member) (args : Value) :
    List AbinitInput → List AbinitInput × Except Err (List Value)
  | [] => ([], .ok [])
  | obj :: rest =>
    match mem obj with
    | none => (obj :: rest, .error (.attributeError "getattr"))
    | some (.val v) =>
      match on_all mem args rest with
      | (objs, .ok rs) => (obj :: objs, .ok (v :: rs))
      | (objs, .error e) => (obj :: objs, .error e)
    | some (.fn f) =>
      match f args obj with
      | (obj2, .ok r) =>
        match on_all mem args rest with
        | (objs, .ok rs) => (obj2 :: objs, .ok (r :: rs))
        | (objs, .error e) => (obj2 :: objs, .error e)
      | (obj2, .error e) => (obj2 :: rest, .error e)

/-- The two possible outcomes of `MultiDataset.__getattr__`: for a plain
attribute the `on_all` closure is invoked on the spot (`isattr` branch) and
the list of per-dataset values is returned; for a callable member the
closure itself is returned, to be invoked later with the call arguments. -/
inductive BroadcastResult where
  | values : List AbinitInput → List Value → BroadcastResult
  | wrapper : (Value → List AbinitInput × Except Err (List Value)) → BroadcastResult

/-- Embedding of `MultiDataset.__getattr__`: fetch the member on dataset 0; a missing
attribute, and also an attribute whose value is `None`, raise
`AttributeError`; a non-callable member triggers the eager `on_all()` call
(with no arguments); a callable member returns the broadcast wrapper. -/
def md_getattr (mem : Member) (md : MultiDataset) : Except Err BroadcastResult :=
  match md.inputs with
  | [] => .error .indexError
  | first :: _ =>
    match mem first with
    | none => .error (.attributeError "getattr")
    | some (.val Value.none) =>
      .error (.attributeError "Cannot find attribute in AbinitInput object")
    | some (.val _) =>
      match on_all mem (Value.list []) md.inputs with
      | (objs, .ok vs) => .ok (.values objs vs)
      | (_, .error e) => .error e
    | some (.fn _) => .ok (.wrapper (fun args => on_all mem args md.inputs))

/-- Argument bundle for a broadcast `set_vars` call: the keyword mapping
encoded as a list of `[name, value]` pairs. -/
def encodeKwargs (kvs : List (String × Value)) : Value :=
  .list (kvs.map (fun p => .list [.str p.1, p.2]))

/-- Decoding of `encodeKwargs`. -/
def decodeKwargs : Value → List (String × Value)
  | .list vs => vs.filterMap (fun v =>
      match v with
      | .list [.str k, w] => some (k, w)
      | _ => none)
  | _ => []

/-- The `set_vars` member of `AbinitInput`, as seen by the broadcast
dispatch: present and callable on every object; calling it mutates the
object through `set_vars` and returns the applied mapping. -/
def setVarsMember (oracle : String → Bool) : Member :=
  fun _ => some (.fn (fun args self =>
    match set_vars oracle self (decodeKwargs args) with
    | (s2, .ok kvs) => (s2, .ok (encodeKwargs kvs))
    | (s2, .error e) => (s2, .error e)))

/-- The `comment` member of `AbinitInput`, as seen by the broadcast
dispatch: a plain attribute whose value is Python `None` when no comment was
set. -/
def commentMember : Member :=
  fun inp => some (.val (match inp.comment with
    | none => Value.none
    | some c => Value.str c))

/-- What the design document says the rendering of one dataset is: optional
comment block, every variable (the stored ones, then the geometry variables
derived from the structural model) rendered with the positional suffix
appended to its name, and, when requested, the delimited pseudopotential
JSON block. -/
def specRenderOne (defn : String → String) (fmtVar : String → Value → String)
    (pjson : List Pseudo → List String) (inp : AbinitInput)
    (suffix : String) (withPseudos : Bool) : String :=
  let commentLines : List String :=
    match inp.comment with
    | some c => if c = "" then [] else ["# " ++ c.replace "\n" "\n#"]
    | none => []
  let varLines := (inp.vars ++ inp.struct.abivars).flatMap (fun p =>
    (if inp.mnemonics then ["# <" ++ defn p.1 ++ ">"] else []) ++ [fmtVar (p.1 ++ suffix) p.2])
  let body := String.intercalate "\n" (commentLines ++ varLines)
  if withPseudos then
    body ++ String.intercalate "\n#" (["\n\n\n#<JSON>"] ++ pjson inp.pseudos ++ ["</JSON>"])
  else body

/-- What the design document says the multi-dataset rendering is: with one
dataset, the plain rendering (no suffix, count line absent, pseudopotentials
included); with `n > 1` datasets, a leading `ndtset n` count line and then,
for each dataset `i`, a bannered block holding the rendering of that dataset with
suffix `str(i+1)` on every variable name and the pseudopotential block only
for the last dataset. -/
def specMultiRender (defn : String → String) (fmtVar : String → Value → String)
    (pjson : List Pseudo → List String) (md : MultiDataset) : String :=
  let n := md.inputs.length
  if n = 1 then
    specRenderOne defn fmtVar pjson (md.inputs.headD default) "" true
  else
    String.intercalate "\n" (("ndtset " ++ toString n) ::
      md.inputs.enum.map (fun p =>
        "\n" ++ dsBanner (p.1 + 1) ++
          specRenderOne defn fmtVar pjson p.2 (toString (p.1 + 1)) (p.1 = n - 1) ++ "\n"))

/-! Helper lemmas about the ordered-dict operations and `Except`. -/

theorem odGet_odSet_self (m : List (String × Value)) (k : String) (v : Value) :
    odGet (odSet m k v) k = some v := by
  unfold odSet
  cases h : odHas m k with
  | false =>
    rw [if_neg (by simp [h])]
    unfold odGet
    rw [List.find?_append]
    have hnone : m.find? (fun p => decide (p.1 = k)) = none := by
      rw [List.find?_eq_none]
      intro p hp hc
      unfold odHas at h
      rw [List.any_eq_false] at h
      exact h p hp hc
    rw [hnone]
    rw [List.find?_cons_of_pos _ (by simp)]
    rfl
  | true =>
    rw [if_pos (by simp [h])]
    unfold odGet
    unfold odHas at h
    induction m with
    | nil => simp at h
    | cons q rest ih =>
      rw [List.map_cons]
      by_cases hq : q.1 = k
      · rw [if_pos hq, List.find?_cons_of_pos _ (by simp)]
        rfl
      · have hr : rest.any (fun p => decide (p.1 = k)) = true := by
          simp only [List.any_cons, Bool.or_eq_true] at h
          rcases h with h1 | h2
          · exact absurd (by simpa using h1) hq
          · exact h2
        rw [if_neg hq, List.find?_cons_of_neg _ (by simp [hq])]
        exact ih hr

theorem odHas_odSet_self (m : List (String × Value)) (k : String) (v : Value) :
    odHas (odSet m k v) k = true := by
  have h := odGet_odSet_self m k v
  unfold odGet at h
  unfold odHas
  cases hf : (odSet m k v).find? (fun p => p.1 = k) with
  | none => rw [hf] at h; simp at h
  | some q =>
    rw [List.any_eq_true]
    have hq := List.find?_some hf
    exact ⟨q, List.mem_of_find?_eq_some hf, hq⟩

theorem odGet_odDel_ne (m : List (String × Value)) (k k2 : String) (h : k ≠ k2) :
    odGet (odDel m k2) k = odGet m k := by
  unfold odGet odDel
  induction m with
  | nil => rfl
  | cons q rest ih =>
    by_cases hq : q.1 = k2
    · have hqk : ¬(q.1 = k) := fun hc => h (by rw [← hc, hq])
      rw [List.filter_cons_of_neg (by simp [hq])]
      rw [List.find?_cons_of_neg _ (by simp [hqk])]
      exact ih
    · rw [List.filter_cons_of_pos (by simp [hq])]
      by_cases hqk : q.1 = k
      · rw [List.find?_cons_of_pos _ (by simp [hqk]),
          List.find?_cons_of_pos _ (by simp [hqk])]
      · rw [List.find?_cons_of_neg _ (by simp [hqk]),
          List.find?_cons_of_neg _ (by simp [hqk])]
        exact ih

theorem odHas_odDel_false (m : List (String × Value)) (k k2 : String)
    (h : odHas m k = false) : odHas (odDel m k2) k = false := by
  unfold odHas at h ⊢
  unfold odDel
  rw [List.any_eq_false] at h ⊢
  intro p hp
  exact h p (List.mem_of_mem_filter hp)

theorem odHas_odDel_self (m : List (String × Value)) (k : String) :
    odHas (odDel m k) k = false := by
  unfold odHas odDel
  rw [List.any_eq_false]
  intro p hp
  have := (List.mem_filter.mp hp).2
  simpa using this

theorem odHas_odDel_ne (m : List (String × Value)) (k k2 : String) (h : k ≠ k2) :
    odHas (odDel m k2) k = odHas m k := by
  unfold odHas odDel
  induction m with
  | nil => rfl
  | cons q rest ih =>
    by_cases hq : q.1 = k2
    · have hqk : ¬(q.1 = k) := fun hc => h (by rw [← hc, hq])
      rw [List.filter_cons_of_neg (by simp [hq])]
      rw [ih]
      simp [List.any_cons, hqk]
    · rw [List.filter_cons_of_pos (by simp [hq])]
      simp only [List.any_cons]
      rw [ih]

theorem mapM_ok_of_forall {α β : Type} (l : List α) (f : α → Except Err β) (g : α → β)
    (h : ∀ a ∈ l, f a = .ok (g a)) : l.mapM f = .ok (l.map g) := by
  induction l with
  | nil => rfl
  | cons x xs ih =>
    rw [List.mapM_cons, h x (List.mem_cons_self x xs)]
    rw [ih (fun a ha => h a (List.mem_cons_of_mem x ha))]
    rfl

theorem mapM_error_mem {α β : Type} (l : List α) (f : α → Except Err β) (e : Err)
    (h : l.mapM f = .error e) : ∃ a ∈ l, f a = .error e := by
  induction l with
  | nil =>
    rw [List.mapM_nil] at h
    exact absurd (show (Except.ok [] : Except Err (List β)) = .error e from h) (by simp)
  | cons x xs ih =>
    rw [List.mapM_cons] at h
    cases hx : f x with
    | error e2 =>
      rw [hx] at h
      have h2 : (Except.error e2 : Except Err (List β)) = .error e := h
      have : e2 = e := by injection h2
      exact ⟨x, List.mem_cons_self x xs, by rw [hx, this]⟩
    | ok b =>
      rw [hx] at h
      cases hxs : xs.mapM f with
      | error e2 =>
        rw [hxs] at h
        have h2 : (Except.error e2 : Except Err (List β)) = .error e := h
        have : e2 = e := by injection h2
        obtain ⟨a, ha, hfa⟩ := ih (by rw [hxs, this])
        exact ⟨a, List.mem_cons_of_mem x ha, hfa⟩
      | ok bs =>
        rw [hxs] at h
        exact absurd (show (Except.ok (b :: bs) : Except Err (List β)) = .error e from h)
          (by simp)

theorem check_varname_shape (oracle : String → Bool) (k : String) :
    check_varname oracle k = .ok () ∨
      ∃ m, check_varname oracle k = .error (.configurationError m) := by
  unfold check_varname
  by_cases h1 : oracle k = true
  · rw [if_neg (by simp [h1])]
    by_cases h2 : k ∈ GEOVARS
    · rw [if_pos h2]; exact Or.inr ⟨_, rfl⟩
    · rw [if_neg h2]; exact Or.inl rfl
  · rw [if_pos (by simp [Bool.eq_false_iff.mpr h1])]
    exact Or.inr ⟨_, rfl⟩

theorem check_varname_ok (oracle : String → Bool) (k : String)
    (h1 : oracle k = true) (h2 : k ∉ GEOVARS) :
    check_varname oracle k = .ok () := by
  unfold check_varname
  rw [if_neg (by simp [h1]), if_neg h2]

/-- On a valid `sortmode` of `None` the rendering of one dataset is exactly
the composition the design document describes. -/
theorem to_string_none_eq (defn : String → String) (fmtVar : String → Value → String)
    (pjson : List Pseudo → List String) (inp : AbinitInput) (post : String)
    (wp : Bool) :
    to_string defn fmtVar pjson inp none post true wp =
      .ok (specRenderOne defn fmtVar pjson inp post wp) := by
  unfold to_string specRenderOne
  rw [if_pos (Or.inl rfl)]
  cases wp <;> simp

/-- Running `on_all` over datasets whose member is uniformly the same bound method
that succeeds everywhere: every dataset is invoked in order, the updated
datasets and the per-dataset results are collected in order. -/
theorem on_all_fn_uniform (mem : Member) (args : Value) (inputs : List AbinitInput)
    (g : AbinitInput → AbinitInput) (r : AbinitInput → Value)
    (h : ∀ obj ∈ inputs, ∃ f, mem obj = some (.fn f) ∧ f args obj = (g obj, .ok (r obj))) :
    on_all mem args inputs = (inputs.map g, .ok (inputs.map r)) := by
  induction inputs with
  | nil => rfl
  | cons x xs ih =>
    obtain ⟨f, hm, hf⟩ := h x (List.mem_cons_self x xs)
    unfold on_all
    rw [hm]
    dsimp only
    rw [hf, ih (fun a ha => h a (List.mem_cons_of_mem x ha))]
    rfl

theorem odHas_foldl_odDel_false (keys : List String) :
    ∀ (m : List (String × Value)) (k : String), odHas m k = false →
      odHas (keys.foldl odDel m) k = false := by
  induction keys with
  | nil => intro m k h; exact h
  | cons x rest ih =>
    intro m k h
    exact ih (odDel m x) k (odHas_odDel_false m k x h)

theorem odHas_foldl_odDel (keys : List String) :
    ∀ (m : List (String × Value)) (k : String), k ∈ keys →
      odHas (keys.foldl odDel m) k = false := by
  induction keys with
  | nil => intro m k h; simp at h
  | cons x rest ih =>
    intro m k h
    rcases List.mem_cons.mp h with rfl | hmem
    · exact odHas_foldl_odDel_false rest (odDel m k) k (odHas_odDel_self m k)
    · exact ih (odDel m x) k hmem

theorem remove_vars_go_all_present (keys : List String) :
    ∀ (inp : AbinitInput) (acc : List Value), keys.Nodup →
      (∀ k ∈ keys, odHas inp.vars k = true) →
      remove_vars_go inp acc keys =
        ({ inp with vars := keys.foldl odDel inp.vars },
         .ok (acc.reverse ++ keys.filterMap (fun k => odGet inp.vars k))) := by
  induction keys with
  | nil => intro inp acc _ _; simp [remove_vars_go]
  | cons k rest ih =>
    intro inp acc hnd hall
    have hk : odHas inp.vars k = true := hall k (List.mem_cons_self k rest)
    unfold odHas at hk
    cases hf : inp.vars.find? (fun p => p.1 = k) with
    | none =>
      rw [List.any_eq_true] at hk
      obtain ⟨q, hq, hqk⟩ := hk
      rw [List.find?_eq_none] at hf
      exact absurd hqk (hf q hq)
    | some q =>
      have hget : odGet inp.vars k = some q.2 := by unfold odGet; rw [hf]; rfl
      have hknotin : k ∉ rest := (List.nodup_cons.mp hnd).1
      simp only [remove_vars_go]
      rw [hf]
      dsimp only
      have hall2 : ∀ k2 ∈ rest, odHas (odDel inp.vars k) k2 = true := by
        intro k2 hk2
        rw [odHas_odDel_ne inp.vars k2 k (fun hc => hknotin (hc ▸ hk2))]
        exact hall k2 (List.mem_cons_of_mem k hk2)
      rw [ih { inp with vars := odDel inp.vars k } (q.2 :: acc)
        (List.nodup_cons.mp hnd).2 hall2]
      have hfm : rest.filterMap (fun k2 => odGet (odDel inp.vars k) k2) =
          rest.filterMap (fun k2 => odGet inp.vars k2) :=
        List.filterMap_congr (fun k2 hk2 =>
          odGet_odDel_ne inp.vars k2 k (fun hc => hknotin (hc ▸ hk2)))
      simp [hfm, List.filterMap_cons_some hget, List.foldl_cons]

theorem remove_vars_go_missing (pre : List String) :
    ∀ (inp : AbinitInput) (acc : List Value) (bad : String) (post : List String),
      pre.Nodup → (∀ k ∈ pre, odHas inp.vars k = true) →
      odHas inp.vars bad = false →
      remove_vars_go inp acc (pre ++ bad :: post) =
        ({ inp with vars := pre.foldl odDel inp.vars }, .error (.keyNotFound bad)) := by
  induction pre with
  | nil =>
    intro inp acc bad post _ _ hbad
    have hf : inp.vars.find? (fun p => p.1 = bad) = none := by
      rw [List.find?_eq_none]
      unfold odHas at hbad
      rw [List.any_eq_false] at hbad
      exact hbad
    rw [List.nil_append]
    simp only [remove_vars_go]
    rw [hf]
    dsimp only
    rfl
  | cons k rest ih =>
    intro inp acc bad post hnd hall hbad
    have hk : odHas inp.vars k = true := hall k (List.mem_cons_self k rest)
    unfold odHas at hk
    cases hf : inp.vars.find? (fun p => p.1 = k) with
    | none =>
      rw [List.any_eq_true] at hk
      obtain ⟨q, hq, hqk⟩ := hk
      rw [List.find?_eq_none] at hf
      exact absurd hqk (hf q hq)
    | some q =>
      have hknotin : k ∉ rest := (List.nodup_cons.mp hnd).1
      have hall2 : ∀ k2 ∈ rest, odHas (odDel inp.vars k) k2 = true := by
        intro k2 hk2
        rw [odHas_odDel_ne inp.vars k2 k (fun hc => hknotin (hc ▸ hk2))]
        exact hall k2 (List.mem_cons_of_mem k hk2)
      rw [List.cons_append]
      simp only [remove_vars_go]
      rw [hf]
      dsimp only
      rw [ih { inp with vars := odDel inp.vars k } (q.2 :: acc) bad post
        (List.nodup_cons.mp hnd).2 hall2 (odHas_odDel_false inp.vars bad k hbad)]
      simp [List.foldl_cons]

/-- Running `on_all` over datasets whose member is uniformly a plain attribute: no
dataset is mutated and the attribute values are collected in order. -/
theorem on_all_val_uniform (mem : Member) (args : Value) (inputs : List AbinitInput)
    (v : AbinitInput → Value)
    (h : ∀ obj ∈ inputs, mem obj = some (.val (v obj))) :
    on_all mem args inputs = (inputs, .ok (inputs.map v)) := by
  induction inputs with
  | nil => rfl
  | cons x xs ih =>
    unfold on_all
    rw [h x (List.mem_cons_self x xs), ih (fun a ha => h a (List.mem_cons_of_mem x ha))]
    rfl

theorem odGet_odSet_ne (m : List (String × Value)) (k k2 : String) (v : Value)
    (h : k ≠ k2) : odGet (odSet m k2 v) k = odGet m k := by
  unfold odSet
  cases hh : odHas m k2 with
  | false =>
    rw [if_neg (by simp [hh])]
    unfold odGet
    rw [List.find?_append]
    have hsing : List.find? (fun p => decide (p.1 = k)) [(k2, v)] = none := by
      rw [List.find?_eq_none]
      intro x hx
      rcases List.mem_singleton.mp hx with rfl
      simpa using Ne.symm h
    rw [hsing, Option.or_none]
  | true =>
    rw [if_pos (by simp [hh])]
    clear hh
    unfold odGet
    induction m with
    | nil => rfl
    | cons q rest ih =>
      rw [List.map_cons]
      by_cases hq : q.1 = k2
      · have hqk : ¬(q.1 = k) := fun hc => h (by rw [← hc, hq])
        rw [if_pos hq]
        rw [List.find?_cons_of_neg _ (by simpa using Ne.symm h),
          List.find?_cons_of_neg _ (by simpa using hqk)]
        exact ih
      · rw [if_neg hq]
        by_cases hqk : q.1 = k
        · rw [List.find?_cons_of_pos _ (by simpa using hqk),
            List.find?_cons_of_pos _ (by simpa using hqk)]
        · rw [List.find?_cons_of_neg _ (by simpa using hqk),
            List.find?_cons_of_neg _ (by simpa using hqk)]
          exact ih

/-! Shared concrete fixtures used by the witnesses and the concrete
counter-evidence.  The oracle accepts every name (the fixtures only use
genuine ABINIT variable names); the resolver returns its input unchanged
(resolution is an external collaborator). -/

def demoOracle : String → Bool := fun _ => true

def demoResolve : List Pseudo → Struct → Except String (List Pseudo) := fun ps _ => .ok ps

def demoStruct : Struct :=
  { a1 := (1, 0, 0), a2 := (0, 1, 0), a3 := (0, 0, 1), abivars := [("natom", .int 1)] }

def leftStruct : Struct :=
  { a1 := (0, 1, 0), a2 := (1, 0, 0), a3 := (0, 0, 1), abivars := [] }

def demoInput : AbinitInput :=
  { vars := [], struct := demoStruct, pseudos := [⟨"Si.psp8"⟩], comment := none,
    mnemonics := false }

def demoKV : AbinitInput :=
  { demoInput with vars := [("ecut", .int 1), ("tsmear", .int 2), ("nband", .int 3)] }

def demoMD3 : MultiDataset := ⟨[demoInput, demoInput, demoInput]⟩

def demoDefn : String → String := fun _ => ""

def demoFmt : String → Value → String := fun n _ => n

def demoJson : List Pseudo → List String := fun ps => ps.map (fun p => p.path)

/-! The claims. -/

/-- C1: counter-evidence against the claim that every one of the eleven
reserved geometry names is rejected by `__setitem__`.  The missing commas in
the `_GEOVARS` literal fuse `rprimd`/`angdeg` and `xred`/`xcart`/`xangst`
into two strings, so those five names are not reserved: whenever the external
database accepts `xred` (it is a genuine ABINIT variable), `__setitem__`
stores it in the variable mapping without raising, while the fused junk names
are reserved instead. -/
theorem geovars_fused_names_not_blocked (oracle : String → Bool) (inp : AbinitInput)
    (v : Value) (h : oracle "xred" = true) :
    setitem oracle inp "xred" v = .ok { inp with vars := odSet inp.vars "xred" v } ∧
    odHas (odSet inp.vars "xred" v) "xred" = true ∧
    "xred" ∉ GEOVARS ∧ "rprimd" ∉ GEOVARS ∧ "angdeg" ∉ GEOVARS ∧
    "xcart" ∉ GEOVARS ∧ "xangst" ∉ GEOVARS ∧
    "rprimdangdeg" ∈ GEOVARS ∧ "xredxcartxangst" ∈ GEOVARS := by
  refine ⟨?_, odHas_odSet_self inp.vars "xred" v, by decide, by decide, by decide,
    by decide, by decide, by decide, by decide⟩
  unfold setitem
  rw [check_varname_ok oracle "xred" h (by decide)]
  rfl

/-- C1 witness: the counter-evidence evaluated at a concrete oracle, input
and value. -/
theorem geovars_fused_names_not_blocked_witness :
    setitem demoOracle demoInput "xred" (Value.int 7) =
      .ok { demoInput with vars := odSet demoInput.vars "xred" (Value.int 7) } ∧
    odHas (odSet demoInput.vars "xred" (Value.int 7)) "xred" = true := by
  have h := geovars_fused_names_not_blocked demoOracle demoInput (Value.int 7) rfl
  exact ⟨h.1, h.2.1⟩

theorem demoStruct_triple_pos : ¬ (tripleProduct demoStruct ≤ 0) := by
  norm_num [tripleProduct, demoStruct]

/-- Constructing an input over the demo structure with no seed variables
succeeds and yields the expected record (the demo resolver passes the
pseudopotential list through unchanged). -/
theorem init_demoStruct_nil (ps : List Pseudo) :
    AbinitInput.init demoOracle demoResolve demoStruct ps none [] =
      .ok { vars := [], struct := demoStruct, pseudos := ps, comment := none,
            mnemonics := false } := by
  unfold AbinitInput.init
  simp only [List.mapM_nil]
  unfold set_structure
  rw [if_neg demoStruct_triple_pos]
  rfl

theorem md_init_demoStruct (ps : List Pseudo) :
    MultiDataset.init demoOracle demoResolve [demoStruct, demoStruct] ps 2 =
      .ok ⟨[{ vars := [], struct := demoStruct, pseudos := ps, comment := none,
              mnemonics := false },
            { vars := [], struct := demoStruct, pseudos := ps, comment := none,
              mnemonics := false }]⟩ := by
  unfold MultiDataset.init
  rw [if_neg (by decide), if_neg (by decide)]
  simp only [List.mapM_cons, List.mapM_nil, init_demoStruct_nil]
  rfl

def inpSi : AbinitInput :=
  { vars := [("ecut", .int 5)], struct := demoStruct, pseudos := [⟨"Si.psp8"⟩],
    comment := none, mnemonics := false }

def inpSiO : AbinitInput :=
  { vars := [("ecut", .int 10)], struct := demoStruct,
    pseudos := [⟨"Si.psp8"⟩, ⟨"O.psp8"⟩], comment := none, mnemonics := false }

/-- C3: counter-evidence against the claim that `from_inputs` fails whenever
the pseudopotential set of some input differs from that of the first.  For the
concrete pair below the pseudopotential lists differ, yet `from_inputs`
succeeds and builds a two-dataset `MultiDataset` whose datasets carry the
variables of the inputs, because the pairwise `zip` comparison never sees the
surplus entry. -/
theorem from_inputs_unequal_pseudos_accepted :
    inpSi.pseudos ≠ inpSiO.pseudos ∧
    MultiDataset.from_inputs demoOracle demoResolve [inpSi, inpSiO] =
      .ok ⟨[{ demoInput with vars := [("ecut", .int 5)] },
            { demoInput with vars := [("ecut", .int 10)] }]⟩ := by
  refine ⟨by decide, ?_⟩
  unfold MultiDataset.from_inputs
  dsimp only
  rw [if_neg (by decide)]
  rw [show [inpSi, inpSiO].map (fun p => p.struct) = [demoStruct, demoStruct] from rfl]
  rw [show inpSi.pseudos = [⟨"Si.psp8"⟩] from rfl,
    show ([inpSi, inpSiO] : List AbinitInput).length = 2 from rfl]
  rw [md_init_demoStruct]
  rfl

def inpGa : AbinitInput :=
  { vars := [], struct := demoStruct, pseudos := [⟨"Ga.psp8"⟩], comment := none,
    mnemonics := false }

def inpGaAs : AbinitInput :=
  { vars := [], struct := demoStruct, pseudos := [⟨"Ga.psp8"⟩, ⟨"As.psp8"⟩],
    comment := none, mnemonics := false }

/-- C10: the consistency check in `from_inputs` zips the pseudopotential
list of the first input against that of each input and compares only the zipped
pairs, so a strict prefix-extension (longer list agreeing on the common
prefix) passes the check and a `MultiDataset` is constructed despite the
differing pseudopotential sets. -/
theorem from_inputs_zip_prefix_extension_passes :
    inpGaAs.pseudos = inpGa.pseudos ++ [⟨"As.psp8"⟩] ∧
    inpGa.pseudos ≠ inpGaAs.pseudos ∧
    (inpGa.pseudos.zip inpGaAs.pseudos).all (fun p => p.1 = p.2) = true ∧
    MultiDataset.from_inputs demoOracle demoResolve [inpGa, inpGaAs] =
      .ok ⟨[inpGa, inpGa]⟩ := by
  refine ⟨rfl, by decide, by decide, ?_⟩
  unfold MultiDataset.from_inputs
  dsimp only
  rw [if_neg (by decide)]
  rw [show [inpGa, inpGaAs].map (fun p => p.struct) = [demoStruct, demoStruct] from rfl]
  rw [show inpGa.pseudos = [⟨"Ga.psp8"⟩] from rfl,
    show ([inpGa, inpGaAs] : List AbinitInput).length = 2 from rfl]
  rw [md_init_demoStruct]
  rfl

/-- C9: broadcast attribute access cannot distinguish a missing member from
a member whose value on the first dataset is Python `None`: the `comment`
attribute exists on every dataset, but on a dataset collection whose first
dataset has no comment its value is `None`, so `MultiDataset.__getattr__`
raises `AttributeError` instead of returning the list of per-dataset
values. -/
theorem broadcast_none_attribute_error :
    (∀ inp : AbinitInput, ∃ m, commentMember inp = some m) ∧
    (demoMD3.inputs.headD default).comment = none ∧
    md_getattr commentMember demoMD3 =
      .error (.attributeError "Cannot find attribute in AbinitInput object") := by
  exact ⟨fun inp => ⟨_, rfl⟩, rfl, rfl⟩


/-- C5: `linspace(name, 0, 1, num=5, endpoint=True)` on a set whose swept
name passes validation returns exactly five copies, each equal to the
original except that the swept variable is overwritten, with values
0, 1/4, 1/2, 3/4, 1 in order; replacing the third returned copy (the
functional image of mutating that deep copy) leaves every other returned
copy, and the original, unchanged. -/
theorem linspace_sweep (oracle : String → Bool) (inp : AbinitInput) (name : String)
    (h1 : oracle name = true) (h2 : name ∉ GEOVARS) :
    linspace oracle inp name 0 1 5 true =
      .ok (([0, 1/4, 1/2, 3/4, 1] : List ℚ).map
        (fun q => { inp with vars := odSet inp.vars name (.rat q) })) ∧
    (∀ rs, linspace oracle inp name 0 1 5 true = .ok rs →
      rs.length = 5 ∧
      rs.map (fun r => odGet r.vars name) =
        [some (.rat 0), some (.rat (1/4)), some (.rat (1/2)), some (.rat (3/4)),
         some (.rat 1)] ∧
      (∀ (w : AbinitInput) (j : Nat), j ≠ 2 → (rs.set 2 w)[j]? = rs[j]?)) := by
  have hls : np_linspace 0 1 5 true = [0, 1/4, 1/2, 3/4, 1] := by
    norm_num [np_linspace, List.range_succ]
  have hset : ∀ q : ℚ, setitem oracle inp name (.rat q) =
      .ok { inp with vars := odSet inp.vars name (.rat q) } := by
    intro q
    unfold setitem
    rw [check_varname_ok oracle name h1 h2]
    rfl
  have hmain : linspace oracle inp name 0 1 5 true =
      .ok (([0, 1/4, 1/2, 3/4, 1] : List ℚ).map
        (fun q => { inp with vars := odSet inp.vars name (.rat q) })) := by
    unfold linspace
    rw [hls]
    exact mapM_ok_of_forall _ _ _ (fun q _ => hset q)
  refine ⟨hmain, ?_⟩
  intro rs hrs
  rw [hmain] at hrs
  have hrs2 : (([0, 1/4, 1/2, 3/4, 1] : List ℚ).map
      (fun q => { inp with vars := odSet inp.vars name (.rat q) })) = rs := by
    injection hrs
  subst hrs2
  refine ⟨rfl, ?_, ?_⟩
  · simp [odGet_odSet_self]
  · intro w j hj
    exact List.getElem?_set_ne (fun hc => hj hc.symm)

/-- C5 witness: the sweep evaluated at a concrete oracle and input. -/
theorem linspace_sweep_witness :
    linspace demoOracle demoInput "ecut" 0 1 5 true =
      .ok (([0, 1/4, 1/2, 3/4, 1] : List ℚ).map
        (fun q => { demoInput with vars := odSet demoInput.vars "ecut" (.rat q) })) :=
  (linspace_sweep demoOracle demoInput "ecut" rfl (by decide)).1

/-- C7: a structural model with non-positive lattice triple product is
rejected: construction fails with the input-error class
(`ConfigurationError`) and returns no object at all, so no variable is ever
observable, and `set_structure` on an existing set raises the same error. -/
theorem lefthanded_structure_rejected (oracle : String → Bool)
    (resolve : List Pseudo → Struct → Except String (List Pseudo))
    (s : Struct) (h : tripleProduct s ≤ 0) (inp : AbinitInput)
    (ps : List Pseudo) (c : Option String) (vars : List (String × Value)) :
    (∃ m, AbinitInput.init oracle resolve s ps c vars = .error (.configurationError m)) ∧
    (∃ m, (set_structure inp s).2 = .error (.configurationError m)) := by
  constructor
  · unfold AbinitInput.init
    cases hv : vars.mapM (fun p => check_varname oracle p.1) with
    | error e =>
      obtain ⟨a, _, hfa⟩ := mapM_error_mem _ _ _ hv
      rcases check_varname_shape oracle a.1 with hok | ⟨m, hm⟩
      · rw [hok] at hfa
        exact absurd hfa (by simp)
      · rw [hm] at hfa
        have h2 : (Except.error (Err.configurationError m) : Except Err Unit) =
            .error e := hfa
        have h3 : Err.configurationError m = e := by injection h2
        refine ⟨m, ?_⟩
        subst h3
        rfl
    | ok us =>
      refine ⟨"The triple product of the lattice vector is negative. Use structure abi_sanitize.", ?_⟩
      dsimp only
      unfold set_structure
      rw [if_pos h]
      rfl
  · unfold set_structure
    rw [if_pos h]
    exact ⟨_, rfl⟩


/-- C7 witness: the rejection evaluated at a concrete left-handed lattice. -/
theorem lefthanded_structure_rejected_witness :
    (∃ m, AbinitInput.init demoOracle demoResolve leftStruct [⟨"Si.psp8"⟩] none [] =
      .error (.configurationError m)) ∧
    (∃ m, (set_structure demoInput leftStruct).2 = .error (.configurationError m)) :=
  lefthanded_structure_rejected demoOracle demoResolve leftStruct
    (by norm_num [tripleProduct, leftStruct]) demoInput [⟨"Si.psp8"⟩] none []


/-- C8: `remove_vars` walks the names sequentially.  When every name is
present, it removes them all and returns the removed values in input order,
and afterwards none of the names is a key of the mapping.  When a name is
missing, `KeyError` carrying that name is raised before the name is removed,
and the names already removed earlier in the call stay removed (no
rollback), while the names after the missing one are untouched. -/
theorem remove_vars_sequential (inp : AbinitInput) :
    (∀ keys : List String, keys.Nodup → (∀ k ∈ keys, odHas inp.vars k = true) →
      remove_vars inp keys =
        ({ inp with vars := keys.foldl odDel inp.vars },
         .ok (keys.filterMap (fun k => odGet inp.vars k))) ∧
      (∀ k ∈ keys, odHas (keys.foldl odDel inp.vars) k = false)) ∧
    (∀ (pre : List String) (bad : String) (post : List String),
      pre.Nodup → (∀ k ∈ pre, odHas inp.vars k = true) → odHas inp.vars bad = false →
      remove_vars inp (pre ++ bad :: post) =
        ({ inp with vars := pre.foldl odDel inp.vars }, .error (.keyNotFound bad))) := by
  constructor
  · intro keys hnd hall
    refine ⟨?_, fun k hk => odHas_foldl_odDel keys inp.vars k hk⟩
    unfold remove_vars
    rw [remove_vars_go_all_present keys inp [] hnd hall]
    rfl
  · intro pre bad post hnd hall hbad
    unfold remove_vars
    exact remove_vars_go_missing pre inp [] bad post hnd hall hbad


/-- C8 witness: both branches evaluated on a concrete three-variable set. -/
theorem remove_vars_sequential_witness :
    remove_vars demoKV ["ecut", "nband"] =
      ({ demoKV with vars := ["ecut", "nband"].foldl odDel demoKV.vars },
       .ok (["ecut", "nband"].filterMap (fun k => odGet demoKV.vars k))) ∧
    remove_vars demoKV ["ecut", "istwfk", "nband"] =
      ({ demoKV with vars := ["ecut"].foldl odDel demoKV.vars },
       .error (.keyNotFound "istwfk")) := by
  have h := remove_vars_sequential demoKV
  refine ⟨(h.1 ["ecut", "nband"] (by decide) (by decide)).1, ?_⟩
  exact h.2 ["ecut"] "istwfk" ["nband"] (by decide) (by decide) (by decide)

/-- C4: broadcast dispatch on a `MultiDataset`.  For a member that is a
bound method on the datasets, `__getattr__` returns the broadcast wrapper,
and invoking the wrapper with given arguments invokes the method identically
on every contained dataset in order and returns the ordered list of
per-dataset results (their updated states in the first component).  For a
member that is a plain attribute (not `None` on dataset 0), the access
evaluates it eagerly on every dataset at access time and returns the list of
values. -/
theorem broadcast_dispatch (mem : Member) (md : MultiDataset)
    (first : AbinitInput) (rest : List AbinitInput) (hmd : md.inputs = first :: rest) :
    ((∃ f, mem first = some (.fn f)) →
      md_getattr mem md = .ok (.wrapper (fun args => on_all mem args (first :: rest)))) ∧
    (∀ (args : Value) (g : AbinitInput → AbinitInput) (r : AbinitInput → Value),
      (∀ obj ∈ first :: rest, ∃ f, mem obj = some (.fn f) ∧
        f args obj = (g obj, .ok (r obj))) →
      on_all mem args (first :: rest) =
        ((first :: rest).map g, .ok ((first :: rest).map r))) ∧
    (∀ (v : AbinitInput → Value),
      (∀ obj ∈ first :: rest, mem obj = some (.val (v obj))) → v first ≠ Value.none →
      md_getattr mem md = .ok (.values (first :: rest) ((first :: rest).map v))) := by
  refine ⟨?_, ?_, ?_⟩
  · rintro ⟨f, hf⟩
    unfold md_getattr
    rw [hmd]
    dsimp only
    rw [hf]
  · intro args g r hm
    exact on_all_fn_uniform mem args (first :: rest) g r hm
  · intro v hm hvne
    unfold md_getattr
    rw [hmd]
    dsimp only
    rw [hm first (List.mem_cons_self first rest)]
    rw [on_all_val_uniform mem (Value.list []) (first :: rest) v hm]
    cases hv : v first with
    | none => exact absurd hv hvne
    | int n => rfl
    | rat q => rfl
    | str s => rfl
    | list vs => rfl

/-- C4 witness: broadcasting `set_vars(ecut=10)` over three datasets
mutates each of the three in order, and afterwards `__getitem__` of
`"ecut"` yields 10 on every dataset. -/
theorem broadcast_dispatch_witness :
    md_getattr (setVarsMember demoOracle) demoMD3 =
      .ok (.wrapper (fun args => on_all (setVarsMember demoOracle) args
        (demoInput :: [demoInput, demoInput]))) ∧
    on_all (setVarsMember demoOracle) (encodeKwargs [("ecut", .int 10)])
        (demoInput :: [demoInput, demoInput]) =
      ([{ demoInput with vars := [("ecut", Value.int 10)] },
        { demoInput with vars := [("ecut", Value.int 10)] },
        { demoInput with vars := [("ecut", Value.int 10)] }],
       .ok [encodeKwargs [("ecut", Value.int 10)], encodeKwargs [("ecut", Value.int 10)],
            encodeKwargs [("ecut", Value.int 10)]]) ∧
    (∀ o ∈ [{ demoInput with vars := [("ecut", Value.int 10)] },
            { demoInput with vars := [("ecut", Value.int 10)] },
            { demoInput with vars := [("ecut", Value.int 10)] }],
       getitem o "ecut" = .ok (.int 10)) := by
  have h := broadcast_dispatch (setVarsMember demoOracle) demoMD3 demoInput
    [demoInput, demoInput] rfl
  refine ⟨h.1 ⟨_, rfl⟩, ?_, ?_⟩
  · exact h.2.1 (encodeKwargs [("ecut", Value.int 10)])
      (fun o => { o with vars := odSet o.vars "ecut" (Value.int 10) })
      (fun _ => encodeKwargs [("ecut", Value.int 10)])
      (by
        intro obj hobj
        exact ⟨_, rfl, rfl⟩)
  · intro o ho
    simp only [List.mem_cons, List.not_mem_nil, or_false] at ho
    rcases ho with rfl | rfl | rfl <;> rfl
/-- On a nonempty rendering, one dataset entry of the multi-dataset loop is
the banner block the design document describes. -/
theorem dsBlock_eq (defn : String → String) (fmtVar : String → Value → String)
    (pjson : List Pseudo → List String) (n : Nat) (p : Nat × AbinitInput)
    (h : specRenderOne defn fmtVar pjson p.2 (toString (p.1 + 1))
      (decide (p.1 = n - 1)) ≠ "") :
    dsBlock defn fmtVar pjson n p =
      .ok ("\n" ++ dsBanner (p.1 + 1) ++
        specRenderOne defn fmtVar pjson p.2 (toString (p.1 + 1))
          (decide (p.1 = n - 1)) ++ "\n") := by
  unfold dsBlock
  rw [to_string_none_eq]
  show (if specRenderOne defn fmtVar pjson p.2 (toString (p.1 + 1))
      (decide (p.1 = n - 1)) = "" then _ else _ : Except Err String) = _
  rw [if_neg h]
  rfl

/-- C2: the multi-dataset rendering refines the composition the design
document describes (`specMultiRender`): with `n > 1` datasets a leading
`ndtset n` count line followed, for each dataset `i`, by a bannered block
holding that dataset rendering with suffix `str(i+1)` appended to every
variable name and the pseudopotential JSON block only in the last dataset
block; with one dataset, the plain rendering with no suffix and no count
line.  The hypothesis rules out the degenerate case of a dataset whose
rendering is the empty string, which the loop skips un-bannered. -/
theorem multidataset_render (defn : String → String) (fmtVar : String → Value → String)
    (pjson : List Pseudo → List String) (md : MultiDataset)
    (h0 : md.inputs ≠ [])
    (hne : ∀ p ∈ md.inputs.enum,
      specRenderOne defn fmtVar pjson p.2 (toString (p.1 + 1))
        (decide (p.1 = md.inputs.length - 1)) ≠ "") :
    MultiDataset.str_ defn fmtVar pjson md =
      .ok (specMultiRender defn fmtVar pjson md) := by
  unfold MultiDataset.str_ specMultiRender
  by_cases h1 : 1 < md.inputs.length
  · rw [if_pos h1, if_neg (by omega)]
    rw [mapM_ok_of_forall md.inputs.enum (dsBlock defn fmtVar pjson md.inputs.length)
      (fun p => "\n" ++ dsBanner (p.1 + 1) ++
        specRenderOne defn fmtVar pjson p.2 (toString (p.1 + 1))
          (decide (p.1 = md.inputs.length - 1)) ++ "\n")
      (fun p hp => dsBlock_eq defn fmtVar pjson md.inputs.length p (hne p hp))]
    rfl
  · rw [if_neg h1]
    cases hmd : md.inputs with
    | nil => exact absurd hmd h0
    | cons inp rest =>
      cases rest with
      | cons b t =>
        exfalso
        apply h1
        rw [hmd]
        simp
      | nil =>
        dsimp only
        rw [to_string_none_eq]
        rw [if_pos (show ([inp] : List AbinitInput).length = 1 by rfl)]
        rfl

def demoMD2 : MultiDataset :=
  ⟨[{ demoInput with vars := [("ecut", Value.int 5)] },
    { demoInput with vars := [("ecut", Value.int 10)] }]⟩

/-- C2 witness: the refinement evaluated on a concrete two-dataset
collection. -/
theorem multidataset_render_witness :
    MultiDataset.str_ demoDefn demoFmt demoJson demoMD2 =
      .ok (specMultiRender demoDefn demoFmt demoJson demoMD2) := by
  apply multidataset_render
  · intro hc
    exact absurd (congrArg List.length hc) (by decide)
  · decide
/-- C6: `product("a","b",[1,2],[10,20])` on a set whose two names pass
validation returns exactly four copies whose `(a, b)` value pairs are
`(1,10), (1,20), (2,10), (2,20)` in row-major order, each copy equal to the
original except for the two overwritten names. -/
theorem product_sweep (oracle : String → Bool) (inp : AbinitInput)
    (ha : oracle "a" = true) (hb : oracle "b" = true) :
    product oracle inp
        [.name "a", .name "b", .vals [.int 1, .int 2], .vals [.int 10, .int 20]] =
      .ok ([((1 : Int), (10 : Int)), (1, 20), (2, 10), (2, 20)].map (fun pr =>
        { inp with vars := odSet (odSet inp.vars "a" (.int pr.1)) "b" (.int pr.2) })) ∧
    (∀ rs, product oracle inp
        [.name "a", .name "b", .vals [.int 1, .int 2], .vals [.int 10, .int 20]] =
          .ok rs →
      rs.map (fun r => (odGet r.vars "a", odGet r.vars "b")) =
        [(some (.int 1), some (.int 10)), (some (.int 1), some (.int 20)),
         (some (.int 2), some (.int 10)), (some (.int 2), some (.int 20))]) := by
  have hset : ∀ (x y : Int), set_vars oracle inp [("a", .int x), ("b", .int y)] =
      ({ inp with vars := odSet (odSet inp.vars "a" (.int x)) "b" (.int y) },
       .ok [("a", .int x), ("b", .int y)]) := by
    intro x y
    unfold set_vars set_vars_go set_vars_go
    rw [check_varname_ok oracle "a" ha (by decide)]
    dsimp only
    rw [check_varname_ok oracle "b" hb (by decide)]
    rfl
  have h0 : product oracle inp
      [.name "a", .name "b", .vals [.int 1, .int 2], .vals [.int 10, .int 20]] =
      ([(["a", "b"], [Value.int 1, Value.int 10]),
        (["a", "b"], [Value.int 1, Value.int 20]),
        (["a", "b"], [Value.int 2, Value.int 10]),
        (["a", "b"], [Value.int 2, Value.int 20])].mapM
          (fun p : List String × List Value =>
            match set_vars oracle inp (p.1.zip p.2) with
            | (inp2, .ok _) => Except.ok inp2
            | (_, .error e) => Except.error e)) := rfl
  have hmain : product oracle inp
      [.name "a", .name "b", .vals [.int 1, .int 2], .vals [.int 10, .int 20]] =
      .ok ([((1 : Int), (10 : Int)), (1, 20), (2, 10), (2, 20)].map (fun pr =>
        { inp with vars := odSet (odSet inp.vars "a" (.int pr.1)) "b" (.int pr.2) })) := by
    rw [h0]
    simp only [List.mapM_cons, List.mapM_nil, List.zip_cons_cons, List.zip_nil_right, hset]
    rfl
  refine ⟨hmain, ?_⟩
  intro rs hrs
  rw [hmain] at hrs
  have hrs2 : ([((1 : Int), (10 : Int)), (1, 20), (2, 10), (2, 20)].map (fun pr =>
      { inp with vars := odSet (odSet inp.vars "a" (.int pr.1)) "b" (.int pr.2) })) = rs := by
    injection hrs
  subst hrs2
  simp only [List.map_cons, List.map_nil]
  have hab : ∀ (x y : Int),
      (odGet (odSet (odSet inp.vars "a" (.int x)) "b" (.int y)) "a",
       odGet (odSet (odSet inp.vars "a" (.int x)) "b" (.int y)) "b") =
      (some (.int x), some (.int y)) := by
    intro x y
    rw [odGet_odSet_self]
    rw [odGet_odSet_ne _ _ _ _ (by decide), odGet_odSet_self]
  rw [hab 1 10, hab 1 20, hab 2 10, hab 2 20]

/-- C6 witness: the cartesian sweep evaluated at a concrete oracle and
input. -/
theorem product_sweep_witness :
    product demoOracle demoInput
        [.name "a", .name "b", .vals [.int 1, .int 2], .vals [.int 10, .int 20]] =
      .ok ([((1 : Int), (10 : Int)), (1, 20), (2, 10), (2, 20)].map (fun pr =>
        { demoInput with
          vars := odSet (odSet demoInput.vars "a" (.int pr.1)) "b" (.int pr.2) })) :=
  (product_sweep demoOracle demoInput rfl rfl).1

end Abipy
